import Mathlib

/-!
Verification of the item-resolution and forecasting pipeline of the
`real-time-orders` repository (a bakery ordering app).

The Python sources are shallowly embedded:
* machine floats become exact rationals (`ℚ`), with `numpy`/`python`
  round-half-to-even modelled by `roundHalfEven`;
* dates become day numbers (`ℤ`, days since 1970-01-01);
* the SQLite catalog becomes an explicit `Catalog` state threaded through
  `resolveItemId`;
* the sklearn Ridge pipeline, the square root inside the weekly standard
  deviation, and the regex engine are higher-order parameters (`fit`,
  `stdFn`, `m`): the properties verified here do not depend on them.
-/

/-- Round-half-to-even on rationals: the semantics of `np.round`, of Python's
builtin `round` and of `"%.0f"` formatting, all of which the pipeline uses. -/
def roundHalfEven (q : ℚ) : ℤ :=
  let f := ⌊q⌋
  let r := q - f
  if r < 1/2 then f
  else if 1/2 < r then f + 1
  else if f % 2 = 0 then f else f + 1

theorem roundHalfEven_intCast (k : ℤ) : roundHalfEven (k : ℚ) = k := by
  unfold roundHalfEven
  simp

/-- `np.maximum(0, np.round(yhat)).astype(int)` applied to one raw model
prediction, from `predict_next_week_for_item` (`app/model_train.py`). -/
def modelPred (r : ℚ) : ℤ := max 0 (roundHalfEven r)

/-- One day of the ML blend from `generate_forecast` (`app/pipeline.py`):
`blended = ml_blend * yhat + (1 - ml_blend) * arr` followed by
`np.maximum(0, np.round(blended)).astype(int)`.  `yhat` is the (already
rounded and clamped) model prediction, `b` the baseline cell. -/
def blendDay (w : ℚ) (yhat : ℤ) (b : ℚ) : ℤ :=
  max 0 (roundHalfEven (w * yhat + (1 - w) * b))

/-- One cell of the batch floor from `generate_forecast` (`app/pipeline.py`):
`max(int(round(x)), min_batch) if x > 0 else 0`. -/
def floorDay (minBatch : ℤ) (x : ℚ) : ℤ :=
  if 0 < x then max (roundHalfEven x) minBatch else 0

/-- C3 counterexample: with `blend_weight = 0` the blended cell is the
baseline *rounded* (half-to-even) and need not equal the baseline exactly:
a baseline of `5/2` (reachable, since baselines are exponentially weighted
means and are only rounded on days that had weather or event adjustments)
blends to `2 ≠ 5/2`. -/
theorem blend_zero_not_exact :
    blendDay 0 (modelPred 3) (5/2) = 2 ∧ ((2 : ℚ) ≠ 5/2) := by
  constructor
  · norm_num [blendDay, modelPred, roundHalfEven]
  · norm_num

/-- C3 (amended): with `blend_weight = 1` the blended cell equals the rounded,
zero-clamped model prediction exactly; with `blend_weight = 0` it is the
baseline rounded half-to-even and clamped at zero, hence equals the baseline
exactly whenever the baseline is a nonnegative integer; in general it is
`max 0 (roundHalfEven (w * yhat + (1 - w) * b))`. -/
theorem blend_endpoints (r b : ℚ) :
    blendDay 1 (modelPred r) b = modelPred r ∧
    blendDay 0 (modelPred r) b = max 0 (roundHalfEven b) ∧
    (∀ k : ℕ, b = (k : ℚ) → blendDay 0 (modelPred r) b = (k : ℤ)) ∧
    (∀ w : ℚ, ∀ y : ℤ, blendDay w y b = max 0 (roundHalfEven (w * y + (1 - w) * b))) := by
  refine ⟨?_, ?_, ?_, fun w y => rfl⟩
  · have h1 : (1 : ℚ) * (modelPred r : ℤ) + (1 - 1) * b = ((modelPred r : ℤ) : ℚ) := by ring
    unfold blendDay
    rw [h1, roundHalfEven_intCast]
    have : (0 : ℤ) ≤ modelPred r := le_max_left _ _
    omega
  · have h0 : (0 : ℚ) * (modelPred r : ℤ) + (1 - 0) * b = b := by ring
    unfold blendDay
    rw [h0]
  · intro k hk
    have h0 : (0 : ℚ) * (modelPred r : ℤ) + (1 - 0) * b = b := by ring
    unfold blendDay
    rw [h0, hk]
    have : roundHalfEven ((k : ℤ) : ℚ) = (k : ℤ) := roundHalfEven_intCast _
    push_cast at this ⊢
    rw [this]
    omega

/-- Witness for `blend_endpoints` at `r = 7/2`, `b = 4`. -/
theorem blend_endpoints_witness :
    blendDay 1 (modelPred (7/2)) 4 = modelPred (7/2) ∧
    blendDay 0 (modelPred (7/2)) 4 = 4 := by
  have h := blend_endpoints (7/2) 4
  exact ⟨h.1, h.2.2.1 4 (by norm_num)⟩

/-- C4: the minimum-batch floor leaves a zero quantity at zero and raises any
strictly positive quantity to at least the configured minimum batch size
(the positive branch computes `max (round x) minBatch`). -/
theorem floor_min_batch (mb : ℤ) (x : ℚ) :
    (x = 0 → floorDay mb x = 0) ∧
    (0 < x → mb ≤ floorDay mb x ∧ floorDay mb x = max (roundHalfEven x) mb) := by
  constructor
  · intro hx
    simp [floorDay, hx]
  · intro hx
    unfold floorDay
    rw [if_pos hx]
    exact ⟨le_max_right _ _, rfl⟩

/-- Witness for `floor_min_batch`: with `min_batch = 6`, a quantity of `0`
stays `0` and a quantity of `3` becomes `6`. -/
theorem floor_min_batch_witness :
    floorDay 6 0 = 0 ∧ 6 ≤ floorDay 6 3 ∧ floorDay 6 3 = 6 := by
  refine ⟨(floor_min_batch 6 0).1 rfl, ((floor_min_batch 6 3).2 (by norm_num)).1,
    by norm_num [floorDay, roundHalfEven]⟩

/-! ### Typical-week note (`generate_forecast`, `app/pipeline.py`) -/

/-- The customer-facing note, with the formatted percentage kept as the
integer produced by `"%.0f"` formatting (round-half-to-even). -/
inductive WeekNote where
  | noTypical
  | higher (n : ℤ)
  | lower (n : ℤ)
  | asExpected
deriving DecidableEq

/-- The per-item note computation of `generate_forecast`
(`app/pipeline.py`): `wmean <= 0` gives "No typical week yet"; otherwise
"Higher than usual" needs `wstd > 0` and `forecast > wmean + thresh*wstd`;
"Lower than usual" needs `wstd > 0` and
`forecast < max(wmean - thresh*wstd, 0)`; else "As expected". -/
def weekNote (thresh wmean wstd forecast : ℚ) : WeekNote :=
  if wmean ≤ 0 then .noTypical
  else
    let diffPct := (forecast - wmean) / wmean * 100
    if 0 < wstd ∧ wmean + thresh * wstd < forecast then .higher (roundHalfEven diffPct)
    else if 0 < wstd ∧ forecast < max (wmean - thresh * wstd) 0 then .lower (roundHalfEven diffPct)
    else .asExpected

/-- C5 counterexample: with mean `100`, stddev `0`, threshold `3/2` and a
forecast total of `200`, the forecast exceeds `mean + thresh*stddev`, yet the
code reports "As expected" because both the Higher and the Lower branches
additionally require `wstd > 0`. -/
theorem weekNote_std_zero_counterexample :
    weekNote (3/2) 100 0 200 = WeekNote.asExpected ∧ ((100 : ℚ) + (3/2) * 0 < 200) := by
  constructor
  · norm_num [weekNote]
  · norm_num

/-- C5 (amended): for an item with positive historical weekly mean `m` and a
nonnegative forecast total `f`, the note is Higher iff `s > 0` and
`f > m + t*s`, Lower iff `s > 0` and `f < m - t*s`, and As expected otherwise
(when `s = 0` the note is always As expected); the percentage is the relative
deviation from `m` rounded half-to-even.  Items whose weekly mean is `≤ 0`
get "No typical week yet". -/
theorem weekNote_classification (t m s f : ℚ) (ht : 0 ≤ t) (hm : 0 < m) (hf : 0 ≤ f) :
    (weekNote t m s f = .higher (roundHalfEven ((f - m) / m * 100)) ↔
      0 < s ∧ m + t * s < f) ∧
    (weekNote t m s f = .lower (roundHalfEven ((f - m) / m * 100)) ↔
      0 < s ∧ f < m - t * s) ∧
    (weekNote t m s f = .asExpected ↔
      ¬(0 < s ∧ m + t * s < f) ∧ ¬(0 < s ∧ f < m - t * s)) ∧
    (∀ m' : ℚ, m' ≤ 0 → weekNote t m' s f = .noTypical) := by
  have hm' : ¬ m ≤ 0 := not_le.mpr hm
  have hmax : f < max (m - t * s) 0 ↔ f < m - t * s := by
    constructor
    · intro h
      rcases max_cases (m - t * s) 0 with ⟨he, _⟩ | ⟨he, hlt⟩
      · rwa [he] at h
      · rw [he] at h; exact absurd hf (not_le.mpr h)
    · intro h
      exact lt_of_lt_of_le h (le_max_left _ _)
  have hexcl : (0 < s ∧ m + t * s < f) → ¬(0 < s ∧ f < m - t * s) := by
    rintro ⟨hs, h1⟩ ⟨_, h2⟩
    have hts := mul_nonneg ht hs.le
    linarith
  unfold weekNote
  rw [if_neg hm']
  refine ⟨?_, ?_, ?_, fun m' hm0 => by simp [weekNote, hm0]⟩
  · by_cases hhi : 0 < s ∧ m + t * s < f
    · rw [if_pos hhi]
      exact iff_of_true rfl hhi
    · rw [if_neg hhi]
      refine iff_of_false ?_ hhi
      split
      · simp
      · simp
  · by_cases hhi : 0 < s ∧ m + t * s < f
    · rw [if_pos hhi]
      exact iff_of_false (by simp) (hexcl hhi)
    · rw [if_neg hhi]
      by_cases hlo : 0 < s ∧ f < max (m - t * s) 0
      · rw [if_pos hlo]
        exact iff_of_true rfl ⟨hlo.1, hmax.mp hlo.2⟩
      · rw [if_neg hlo]
        exact iff_of_false (by simp) (fun ⟨hs, h⟩ => hlo ⟨hs, hmax.mpr h⟩)
  · by_cases hhi : 0 < s ∧ m + t * s < f
    · rw [if_pos hhi]
      exact iff_of_false (by simp) (fun h => h.1 hhi)
    · rw [if_neg hhi]
      by_cases hlo : 0 < s ∧ f < max (m - t * s) 0
      · rw [if_pos hlo]
        exact iff_of_false (by simp) (fun h => h.2 ⟨hlo.1, hmax.mp hlo.2⟩)
      · rw [if_neg hlo]
        exact iff_of_true rfl ⟨hhi, fun ⟨hs, h⟩ => hlo ⟨hs, hmax.mpr h⟩⟩

/-- Witness for `weekNote_classification` at the spec's boundary instance:
mean `100`, stddev `10`, threshold `3/2`; total `116` is Higher (+16%),
`115` is As expected (the boundary is exclusive), `84` is Lower (-16%). -/
theorem weekNote_classification_witness :
    weekNote (3/2) 100 10 116 = WeekNote.higher 16 ∧
    weekNote (3/2) 100 10 115 = WeekNote.asExpected ∧
    weekNote (3/2) 100 10 84 = WeekNote.lower (-16) := by
  have h116 := weekNote_classification (3/2) 100 10 116 (by norm_num) (by norm_num) (by norm_num)
  have h115 := weekNote_classification (3/2) 100 10 115 (by norm_num) (by norm_num) (by norm_num)
  have h84 := weekNote_classification (3/2) 100 10 84 (by norm_num) (by norm_num) (by norm_num)
  refine ⟨?_, ?_, ?_⟩
  · have := h116.1.mpr ⟨by norm_num, by norm_num⟩
    rw [this]
    norm_num [roundHalfEven]
  · exact h115.2.2.1.mpr ⟨by rintro ⟨_, h⟩; norm_num at h, by rintro ⟨_, h⟩; norm_num at h⟩
  · have := h84.2.1.mpr ⟨by norm_num, by norm_num⟩
    rw [this]
    norm_num [roundHalfEven]

/-! ### Catalog resolution (`resolve_item_id`, `app/db.py`)

The SQLite state is embedded as explicit lists of rows; `item_id`s are
assigned as `max existing id + 1` (SQLite rowid allocation for an
`INTEGER PRIMARY KEY` table with no deletions).  The regex engine behind
`re.search` is a parameter `m : String → String → Bool` (pattern, text);
`literalMatch` below instantiates it for metacharacter-free patterns. -/

/-- An `items` row: `(id, canonical_name, category)`. -/
structure Catalog where
  items : List (ℕ × String × Option String)
  aliases : List (String × ℕ)
  config : List (String × String)
deriving DecidableEq

/-- The `ValueError("Empty item name cannot be resolved")` raised by
`resolve_item_id` on blank input — the spec's `EmptyNameError`. -/
inductive ResolveError where
  | emptyName
deriving DecidableEq

/-- Prefix test on character lists: does `ps` start `ss`? -/
def charsMatchAt (ps ss : List Char) : Bool :=
  match ps, ss with
  | [], _ => true
  | _ :: _, [] => false
  | a :: ps', b :: ss' => a == b && charsMatchAt ps' ss'

/-- Substring search on character lists. -/
def charsSearch (ps : List Char) : List Char → Bool
  | [] => charsMatchAt ps []
  | s@(_ :: rest) => charsMatchAt ps s || charsSearch ps rest

/-- `re.search` restricted to patterns without regex metacharacters:
substring containment.  Used to instantiate the abstract matcher in
witnesses and counterexamples. -/
def literalMatch (pat s : String) : Bool :=
  charsSearch pat.data s.data

/-- Python `str.strip()` whitespace (ASCII portion, which covers the
pipeline's inputs). -/
def isPySpace (c : Char) : Bool :=
  c == ' ' || c == '\t' || c == '\n' || c == '\r' || c.toNat == 11 || c.toNat == 12

/-- Python `str.strip()`. -/
def pyStrip (s : String) : String :=
  String.mk (((s.data.dropWhile isPySpace).reverse.dropWhile isPySpace).reverse)

/-- Split at the *first* occurrence of `sep`, Python `v.split(sep, 1)`
together with the `sep in v` test: `none` when `sep` does not occur. -/
def splitOnce (sep : List Char) : List Char → Option (List Char × List Char)
  | [] => none
  | s@(c :: rest) =>
      if charsMatchAt sep s then some ([], s.drop sep.length)
      else
        match splitOnce sep rest with
        | some (pre, post) => some (c :: pre, post)
        | none => none

/-- Lexicographic `<` on character lists (by code point): Python string
comparison. -/
def lexLt : List Char → List Char → Bool
  | [], [] => false
  | [], _ :: _ => true
  | _ :: _, [] => false
  | a :: as, b :: bs => a.toNat < b.toNat || (a.toNat == b.toNat && lexLt as bs)

/-- Lexicographic `≤` on character lists. -/
def lexLe (x y : List Char) : Bool := !(lexLt y x)

/-- `_get_item_id_by_alias` (`app/db.py`). -/
def getItemIdByAlias (st : Catalog) (a : String) : Option ℕ :=
  (st.aliases.find? (fun p => p.1 == a)).map (·.2)

/-- `_get_item_id_by_canonical` (`app/db.py`). -/
def getItemIdByCanonical (st : Catalog) (c : String) : Option ℕ :=
  (st.items.find? (fun t => t.2.1 == c)).map (·.1)

/-- The rowid SQLite hands out for the next `items` insert. -/
def nextItemId (st : Catalog) : ℕ :=
  (st.items.map (·.1)).foldr max 0 + 1

/-- `_create_item_with_alias` (`app/db.py`): insert the item, insert the
alias pointing at it, return the new id. -/
def createItemWithAlias (st : Catalog) (canonical aName : String) (cat : Option String) :
    ℕ × Catalog :=
  let iid := nextItemId st
  (iid, { st with items := st.items ++ [(iid, canonical, cat)],
                  aliases := st.aliases ++ [(aName, iid)] })

/-- `upsert_alias` (`app/db.py`): insert `alias -> item_id` only if the alias
is not present yet. -/
def upsertAlias (st : Catalog) (aName : String) (iid : ℕ) : Catalog :=
  if (st.aliases.find? (fun p => p.1 == aName)).isSome then st
  else { st with aliases := st.aliases ++ [(aName, iid)] }

/-- `if "=>" in rule: pat, canon = [x.strip() for x in rule.split("=>", 1)]`
from `resolve_item_id`; `none` when the rule value contains no `"=>"`
(such rules are skipped). -/
def parseRule (v : String) : Option (String × String) :=
  match splitOnce "=>".data v.data with
  | some (pre, post) => some (pyStrip (String.mk pre), pyStrip (String.mk post))
  | none => none

/-- Insertion step of a stable insertion sort on the setting name. -/
def insertByName (p : String × String) : List (String × String) → List (String × String)
  | [] => [p]
  | q :: rest => if lexLe p.1.data q.1.data then p :: q :: rest else q :: insertByName p rest

/-- Python's `sorted(rules.items())`: ascending in the *string* order of the
setting names (the tie-break on values is unreachable, `setting_name` is
unique). -/
def sortRulesByName (l : List (String × String)) : List (String × String) :=
  l.foldr insertByName []

/-- The candidate canonical name from the `canon_rule_%` config entries, as
computed inside `resolve_item_id` (`app/db.py`): iterate the rules sorted by
setting name, skip values without `"=>"`, and return the canonical half of
the first rule whose pattern matches. -/
def ruleCandidate (m : String → String → Bool) (cfg : List (String × String))
    (aName : String) : Option String :=
  let rules := cfg.filter (fun p => charsMatchAt "canon_rule_".data p.1.data)
  (sortRulesByName rules).findSome? (fun p =>
    match parseRule p.2 with
    | some (pat, canon) => if m pat aName then some canon else none
    | none => none)

/-- Steps 2-5 of `resolve_item_id` once the alias lookup has missed.
`if canonical:` is Python truthiness, so an empty canonical string falls
through to the fallback; likewise `if existing:` treats id `0` as a miss. -/
def resolveFresh (m : String → String → Bool) (st : Catalog) (aName : String)
    (cat : Option String) : ℕ × Catalog :=
  match ruleCandidate m st.config aName with
  | some canonical =>
      if canonical = "" then createItemWithAlias st aName aName cat
      else
        match getItemIdByCanonical st canonical with
        | some existing =>
            if existing ≠ 0 then (existing, upsertAlias st aName existing)
            else createItemWithAlias st canonical aName cat
        | none => createItemWithAlias st canonical aName cat
  | none => createItemWithAlias st aName aName cat

/-- `resolve_item_id` (`app/db.py`).  Returns the outcome together with the
catalog state after the call (unchanged when an error is raised, since the
raise happens before any write). -/
def resolveItemId (m : String → String → Bool) (st : Catalog) (rawName : String)
    (cat : Option String) : Except ResolveError ℕ × Catalog :=
  if pyStrip rawName = "" then (.error .emptyName, st)
  else
    match getItemIdByAlias st (pyStrip rawName) with
    | some i =>
        if i ≠ 0 then (.ok i, st)
        else ((.ok (resolveFresh m st (pyStrip rawName) cat).1),
              (resolveFresh m st (pyStrip rawName) cat).2)
    | none =>
        ((.ok (resolveFresh m st (pyStrip rawName) cat).1),
         (resolveFresh m st (pyStrip rawName) cat).2)

/-- Well-formedness of a reachable catalog: SQLite rowids are positive. -/
def CatalogWF (st : Catalog) : Prop :=
  (∀ p ∈ st.aliases, 1 ≤ p.2) ∧ (∀ t ∈ st.items, 1 ≤ t.1)

/-! ### Catalog lemmas -/

theorem find?_append_of_none {α : Type} (p : α → Bool) (l₁ l₂ : List α)
    (h : l₁.find? p = none) : (l₁ ++ l₂).find? p = l₂.find? p := by
  induction l₁ with
  | nil => simp
  | cons a t ih =>
      cases hpa : p a with
      | true => rw [List.find?_cons_of_pos _ hpa] at h; exact absurd h (by simp)
      | false =>
          rw [List.find?_cons_of_neg _ (by simp [hpa])] at h
          rw [List.cons_append, List.find?_cons_of_neg _ (by simp [hpa])]
          exact ih h

theorem createItemWithAlias_lookup (st : Catalog) (canonical aName : String)
    (cat : Option String)
    (hfind : st.aliases.find? (fun p => p.1 == aName) = none) :
    getItemIdByAlias (createItemWithAlias st canonical aName cat).2 aName =
      some (createItemWithAlias st canonical aName cat).1 ∧
    (createItemWithAlias st canonical aName cat).1 ≠ 0 := by
  unfold createItemWithAlias getItemIdByAlias nextItemId
  constructor
  · simp only []
    rw [find?_append_of_none _ _ _ hfind]
    simp [List.find?]
  · simp

theorem resolveFresh_lookup (m : String → String → Bool) (st : Catalog) (aName : String)
    (cat : Option String) (hnone : getItemIdByAlias st aName = none) :
    getItemIdByAlias (resolveFresh m st aName cat).2 aName =
      some (resolveFresh m st aName cat).1 ∧
    (resolveFresh m st aName cat).1 ≠ 0 := by
  have hfind : st.aliases.find? (fun p => p.1 == aName) = none := by
    unfold getItemIdByAlias at hnone
    cases hf : st.aliases.find? (fun p => p.1 == aName) with
    | none => rfl
    | some pr => rw [hf] at hnone; simp at hnone
  cases hc : ruleCandidate m st.config aName with
  | none =>
      simp only [resolveFresh, hc]
      exact createItemWithAlias_lookup st aName aName cat hfind
  | some canonical =>
      by_cases hce : canonical = ""
      · simp only [resolveFresh, hc, if_pos hce]
        exact createItemWithAlias_lookup st aName aName cat hfind
      · cases hgc : getItemIdByCanonical st canonical with
        | none =>
            simp only [resolveFresh, hc, if_neg hce, hgc]
            exact createItemWithAlias_lookup st canonical aName cat hfind
        | some existing =>
            by_cases hex : existing ≠ 0
            · simp only [resolveFresh, hc, if_neg hce, hgc, if_pos hex]
              refine ⟨?_, hex⟩
              unfold upsertAlias getItemIdByAlias
              rw [hfind]
              simp only [Option.isSome_none, Bool.false_eq_true, if_false]
              rw [find?_append_of_none _ _ _ hfind]
              simp [List.find?]
            · simp only [resolveFresh, hc, if_neg hce, hgc, if_neg hex]
              exact createItemWithAlias_lookup st canonical aName cat hfind

/-- C1: `resolve_item_id` is idempotent on any well-formed catalog: if a
first call on `raw` succeeds with id `n` and post-state `st'`, a second call
on the same raw name returns the same `n` and leaves the state exactly
`st'` — in particular it creates no new `items` row and no new
`item_aliases` row. -/
theorem resolve_idempotent (m : String → String → Bool) (st : Catalog) (raw : String)
    (cat : Option String) (n : ℕ) (st' : Catalog) (hwf : CatalogWF st)
    (h : resolveItemId m st raw cat = (.ok n, st')) :
    resolveItemId m st' raw cat = (.ok n, st') := by
  unfold resolveItemId at h ⊢
  by_cases he : pyStrip raw = ""
  · rw [if_pos he] at h
    simp [Prod.ext_iff] at h
  · rw [if_neg he] at h ⊢
    cases hfind : getItemIdByAlias st (pyStrip raw) with
    | some i =>
        simp only [hfind] at h
        by_cases hi : i ≠ 0
        · rw [if_pos hi] at h
          have h1 : (Except.ok i : Except ResolveError ℕ) = .ok n := congrArg Prod.fst h
          have h2 : st = st' := congrArg Prod.snd h
          have hn : i = n := by injection h1
          subst hn
          rw [← h2]
          simp only [hfind, if_pos hi]
        · exfalso
          unfold getItemIdByAlias at hfind
          cases hf : st.aliases.find? (fun p => p.1 == pyStrip raw) with
          | none => rw [hf] at hfind; simp at hfind
          | some pr =>
              rw [hf] at hfind
              simp at hfind
              have hmem := List.mem_of_find?_eq_some hf
              have := hwf.1 pr hmem
              omega
    | none =>
        simp only [hfind] at h
        have hr := resolveFresh_lookup m st (pyStrip raw) cat hfind
        have h1 : (Except.ok ((resolveFresh m st (pyStrip raw) cat).1) :
            Except ResolveError ℕ) = .ok n := congrArg Prod.fst h
        have h2 : (resolveFresh m st (pyStrip raw) cat).2 = st' := congrArg Prod.snd h
        have hn : (resolveFresh m st (pyStrip raw) cat).1 = n := by injection h1
        rw [h2, hn] at hr
        simp only [hr.1, if_pos hr.2]

/-- The default `canon_rule_%` configuration shipped in `DEFAULT_CONFIG`
(`app/db.py`), together with the scalar settings. -/
def defaultConfig : List (String × String) :=
  [("coef_temp", "0.15"), ("coef_rain", "0.10"), ("min_batch_size", "6"),
   ("std_alert_threshold", "1.5"), ("lookback_weeks", "26"),
   ("canon_rule_1", "(?i)hot\\s*choc.* => Hot Chocolate"),
   ("canon_rule_2", "(?i)matcha.* => Matcha"),
   ("canon_rule_3", "(?i)coffee.*(reg|regular).* => Coffee (Regular)"),
   ("canon_rule_4", "(?i)coffee.*(large|l)\\b.* => Coffee (Large)")]

/-- A freshly initialised catalog. -/
def catEx0 : Catalog := ⟨[], [], defaultConfig⟩

/-- The catalog after resolving `"Latte"` once. -/
def catEx1 : Catalog := (resolveItemId literalMatch catEx0 "Latte" none).2

/-- Witness for `resolve_idempotent`: resolving `"Latte"` on a fresh catalog
creates item 1; resolving it again returns 1 and changes nothing. -/
theorem resolve_idempotent_witness :
    resolveItemId literalMatch catEx0 "Latte" none = (.ok 1, catEx1) ∧
    resolveItemId literalMatch catEx1 "Latte" none = (.ok 1, catEx1) := by
  have hwf : CatalogWF catEx0 := ⟨by simp [catEx0], by simp [catEx0]⟩
  have h1 : resolveItemId literalMatch catEx0 "Latte" none = (.ok 1, catEx1) := by
    refine Prod.ext ?_ rfl
    rfl
  exact ⟨h1, resolve_idempotent literalMatch catEx0 "Latte" none 1 catEx1 hwf h1⟩

/-- C9: a raw name that strips to the empty string raises the empty-name
error and leaves the catalog completely unchanged (the raise precedes any
write). -/
theorem resolve_empty_name (m : String → String → Bool) (st : Catalog) (raw : String)
    (cat : Option String) (h : pyStrip raw = "") :
    resolveItemId m st raw cat = (.error .emptyName, st) := by
  unfold resolveItemId
  rw [if_pos h]

/-- Witness for `resolve_empty_name` on the whitespace-only input `"  "`. -/
theorem resolve_empty_name_witness :
    resolveItemId literalMatch catEx0 "  " none = (.error .emptyName, catEx0) :=
  resolve_empty_name literalMatch catEx0 "  " none (by decide)

/-! ### Canonicalization-rule ordering (C6) -/

theorem lexLt_irrefl (x : List Char) : lexLt x x = false := by
  induction x with
  | nil => rfl
  | cons a as ih => simp [lexLt, ih]

theorem lexLt_asymm (x y : List Char) (hxy : lexLt x y = true) :
    lexLt y x = false := by
  induction x generalizing y with
  | nil =>
      cases y with
      | nil => simp [lexLt] at hxy
      | cons b bs => simp [lexLt]
  | cons a as ih =>
      cases y with
      | nil => simp [lexLt] at hxy
      | cons b bs =>
          simp only [lexLt, Bool.or_eq_true, Bool.and_eq_true, decide_eq_true_eq,
            beq_iff_eq] at hxy ⊢
          rcases hxy with h | ⟨heq, hlt⟩
          · simp only [Bool.or_eq_false_iff, Bool.and_eq_false_iff]
            constructor
            · simp only [decide_eq_false_iff_not]
              omega
            · left
              simp only [beq_eq_false_iff_ne, ne_eq]
              omega
          · simp only [Bool.or_eq_false_iff, Bool.and_eq_false_iff]
            constructor
            · simp only [decide_eq_false_iff_not]
              omega
            · right
              exact ih bs hlt

theorem lexLt_trans (x y z : List Char) (hxy : lexLt x y = true)
    (hyz : lexLt y z = true) : lexLt x z = true := by
  induction x generalizing y z with
  | nil =>
      cases z with
      | nil =>
          cases y with
          | nil => simp [lexLt] at hxy
          | cons b bs => simp [lexLt] at hyz
      | cons c cs => simp [lexLt]
  | cons a as ih =>
      cases y with
      | nil => simp [lexLt] at hxy
      | cons b bs =>
          cases z with
          | nil => simp [lexLt] at hyz
          | cons c cs =>
              simp only [lexLt, Bool.or_eq_true, Bool.and_eq_true, decide_eq_true_eq,
                beq_iff_eq] at hxy hyz ⊢
              rcases hxy with h1 | ⟨he1, hl1⟩ <;> rcases hyz with h2 | ⟨he2, hl2⟩
              · left; omega
              · left; omega
              · left; omega
              · right; exact ⟨by omega, ih bs cs hl1 hl2⟩

theorem lexLt_connex (x y : List Char) (h : lexLt x y = false) (h' : x ≠ y) :
    lexLt y x = true := by
  induction x generalizing y with
  | nil =>
      cases y with
      | nil => exact absurd rfl h'
      | cons b bs => simp [lexLt] at h
  | cons a as ih =>
      cases y with
      | nil => simp [lexLt]
      | cons b bs =>
          simp only [lexLt, Bool.or_eq_true, Bool.and_eq_true, decide_eq_true_eq,
            beq_iff_eq, Bool.or_eq_false_iff, Bool.and_eq_false_iff] at h ⊢
          obtain ⟨hab, hrest⟩ := h
          simp only [decide_eq_false_iff_not] at hab
          rcases Nat.lt_or_ge b.toNat a.toNat with hba | hba
          · left; exact hba
          · have heq : a.toNat = b.toNat := by omega
            have hchar : a = b := by
              have : a.val = b.val := by
                have h1 : a.val.toNat = b.val.toNat := heq
                exact UInt32.toNat.inj h1
              exact Char.ext this
            right
            refine ⟨by omega, ?_⟩
            rcases hrest with hne | hlt
            · simp only [beq_eq_false_iff_ne, ne_eq] at hne
              omega
            · apply ih
              · exact hlt
              · intro hh
                exact h' (by rw [hchar, hh])

theorem lexLe_refl (x : List Char) : lexLe x x = true := by
  simp [lexLe, lexLt_irrefl]

theorem lexLe_total (x y : List Char) (h : lexLe x y = false) : lexLe y x = true := by
  unfold lexLe at h ⊢
  cases hyx : lexLt y x with
  | false => rw [hyx] at h; simp at h
  | true => rw [lexLt_asymm y x hyx]; rfl

theorem lexLe_trans (x y z : List Char) (hxy : lexLe x y = true)
    (hyz : lexLe y z = true) : lexLe x z = true := by
  simp only [lexLe, Bool.not_eq_true'] at hxy hyz ⊢
  by_cases hzx : lexLt z x = true
  · by_cases hxz : x = z
    · rw [hxz] at hzx
      rw [lexLt_irrefl] at hzx
      exact absurd hzx (by simp)
    · have h1 : lexLt x z = false := lexLt_asymm z x hzx
      have h2 : lexLt z x = true := hzx
      -- z < x, x ≤ y, y ≤ z: derive contradiction via connexity
      have hyx : lexLt x y = true ∨ x = y := by
        by_cases hxy' : x = y
        · right; exact hxy'
        · left; exact lexLt_connex y x hxy (Ne.symm hxy')
      have hzy : lexLt y z = true ∨ y = z := by
        by_cases hyz' : y = z
        · right; exact hyz'
        · left; exact lexLt_connex z y hyz (Ne.symm hyz')
      rcases hyx with hyx | rfl <;> rcases hzy with hzy | rfl
      · have := lexLt_trans x y z hyx hzy
        rw [lexLt_asymm x z this] at hzx
        exact absurd hzx (by simp)
      · rw [lexLt_asymm x y hyx] at hzx
        exact absurd hzx (by simp)
      · rw [lexLt_asymm x z hzy] at hzx
        exact absurd hzx (by simp)
      · rw [lexLt_irrefl] at hzx
        exact absurd hzx (by simp)
  · simpa using hzx

/-- The sort order used on rules: `lexLe` on the setting names. -/
def RuleLe (p q : String × String) : Prop := lexLe p.1.data q.1.data = true

theorem mem_insertByName (p a : String × String) (l : List (String × String)) :
    a ∈ insertByName p l ↔ a = p ∨ a ∈ l := by
  induction l with
  | nil => simp [insertByName]
  | cons q rest ih =>
      unfold insertByName
      by_cases hle : lexLe p.1.data q.1.data = true
      · rw [if_pos hle]
        simp [or_comm, or_assoc, or_left_comm]
      · rw [if_neg hle]
        simp only [List.mem_cons, ih]
        tauto

theorem pairwise_insertByName (p : String × String) (l : List (String × String))
    (hl : l.Pairwise RuleLe) : (insertByName p l).Pairwise RuleLe := by
  induction l with
  | nil => simp [insertByName, List.pairwise_singleton]
  | cons q rest ih =>
      unfold insertByName
      rcases List.pairwise_cons.mp hl with ⟨hq, hrest⟩
      by_cases hle : lexLe p.1.data q.1.data = true
      · rw [if_pos hle]
        refine List.pairwise_cons.mpr ⟨?_, hl⟩
        intro y hy
        rcases List.mem_cons.mp hy with rfl | hy'
        · exact hle
        · exact lexLe_trans _ _ _ hle (hq y hy')
      · rw [if_neg hle]
        refine List.pairwise_cons.mpr ⟨?_, ih hrest⟩
        intro y hy
        rcases (mem_insertByName p y rest).mp hy with rfl | hy'
        · exact lexLe_total _ _ (by simpa using hle)
        · exact hq y hy'

theorem mem_sortRulesByName (a : String × String) (l : List (String × String)) :
    a ∈ sortRulesByName l ↔ a ∈ l := by
  induction l with
  | nil => simp [sortRulesByName]
  | cons q rest ih =>
      unfold sortRulesByName at ih ⊢
      rw [List.foldr_cons, mem_insertByName]
      simp [ih]

theorem pairwise_sortRulesByName (l : List (String × String)) :
    (sortRulesByName l).Pairwise RuleLe := by
  induction l with
  | nil => simp [sortRulesByName]
  | cons q rest ih =>
      unfold sortRulesByName at ih ⊢
      rw [List.foldr_cons]
      exact pairwise_insertByName q _ ih

theorem findSome?_split {α β : Type} (f : α → Option β) (l : List α) (b : β)
    (h : l.findSome? f = some b) :
    ∃ l₁ x l₂, l = l₁ ++ x :: l₂ ∧ f x = some b ∧ ∀ y ∈ l₁, f y = none := by
  induction l with
  | nil => simp [List.findSome?] at h
  | cons a t ih =>
      cases hfa : f a with
      | some b' =>
          have h' : (some b' : Option β) = some b := by
            rw [List.findSome?_cons, hfa] at h
            exact h
          refine ⟨[], a, t, by simp, ?_, by simp⟩
          rw [hfa]
          exact h'
      | none =>
          have h' : List.findSome? f t = some b := by
            rw [List.findSome?_cons, hfa] at h
            exact h
          obtain ⟨l₁, x, l₂, hsplit, hx, hpre⟩ := ih h'
          refine ⟨a :: l₁, x, l₂, by simp [hsplit], hx, ?_⟩
          intro y hy
          rcases List.mem_cons.mp hy with rfl | hy'
          · exact hfa
          · exact hpre y hy'

/-- C6 (amended): the canonical-name candidate is determined by the matching
rule whose *setting name* is lexicographically least (Python's
`sorted(rules.items())` sorts the names as strings, not by the numeric rule
identifier): whenever `ruleCandidate` yields a candidate, it is the canonical
half of a matching rule, and every other matching rule's name is
lexicographically `≥` that rule's name. -/
theorem ruleCandidate_first_in_name_order (m : String → String → Bool)
    (cfg : List (String × String)) (aN c : String)
    (h : ruleCandidate m cfg aN = some c) :
    ∃ n v pat, (n, v) ∈ cfg ∧ charsMatchAt "canon_rule_".data n.data = true ∧
      parseRule v = some (pat, c) ∧ m pat aN = true ∧
      ∀ n' v' pat' c', (n', v') ∈ cfg → charsMatchAt "canon_rule_".data n'.data = true →
        parseRule v' = some (pat', c') → m pat' aN = true →
        lexLe n.data n'.data = true := by
  simp only [ruleCandidate] at h
  obtain ⟨l₁, x, l₂, hsplit, hx, hpre⟩ := findSome?_split _ _ _ h
  have hxmem : x ∈ cfg.filter (fun p => charsMatchAt "canon_rule_".data p.1.data) := by
    rw [← mem_sortRulesByName, hsplit]
    simp
  have hxcfg : x ∈ cfg := (List.mem_filter.mp hxmem).1
  have hxcanon : charsMatchAt "canon_rule_".data x.1.data = true :=
    (List.mem_filter.mp hxmem).2
  cases hparse : parseRule x.2 with
  | none =>
      exfalso
      have hx' : (none : Option String) = some c := by
        rw [hparse] at hx
        exact hx
      simp at hx'
  | some pc =>
      obtain ⟨pat, canon⟩ := pc
      have hx' : (if m pat aN then some canon else none) = some c := by
        rw [hparse] at hx
        exact hx
      by_cases hm : m pat aN
      · rw [if_pos hm] at hx'
        have hcanon : canon = c := by injection hx'
        subst hcanon
        refine ⟨x.1, x.2, pat, by simpa using hxcfg, hxcanon, hparse, by simpa using hm, ?_⟩
        intro n' v' pat' c' hmem hcanon' hparse' hm'
        have hmem' : (n', v') ∈ cfg.filter
            (fun p => charsMatchAt "canon_rule_".data p.1.data) :=
          List.mem_filter.mpr ⟨hmem, hcanon'⟩
        rw [← mem_sortRulesByName, hsplit] at hmem'
        have hf : (fun p : String × String =>
            match parseRule p.2 with
            | some (pat, canon) => if m pat aN then some canon else none
            | none => none) (n', v') = some c' := by
          show (match parseRule v' with
            | some (pat, canon) => if m pat aN then some canon else none
            | none => none) = some c'
          rw [hparse']
          show (if m pat' aN then some c' else none) = some c'
          rw [if_pos hm']
        rcases List.mem_append.mp hmem' with hin | hin
        · exact absurd (hpre _ hin) (by simp [hf])
        · rcases List.mem_cons.mp hin with heq | hin'
          · rw [← heq]
            exact lexLe_refl _
          · have hpw := pairwise_sortRulesByName
              (cfg.filter (fun p => charsMatchAt "canon_rule_".data p.1.data))
            rw [hsplit] at hpw
            have := (List.pairwise_append.mp hpw).2.1
            have hxy := (List.pairwise_cons.mp this).1 _ hin'
            exact hxy
      · exfalso
        rw [if_neg hm] at hx'
        simp at hx'

/-- The two-rule configuration of the C6 counterexample: rule 2 maps `foo`
to `A`, rule 10 maps `foo` to `B`. -/
def cfgLex : List (String × String) :=
  [("canon_rule_2", "foo => A"), ("canon_rule_10", "foo => B")]

/-- A catalog holding only `cfgLex`. -/
def catLex : Catalog := ⟨[], [], cfgLex⟩

/-- C6 counterexample: with rules `canon_rule_2 : foo => A` and
`canon_rule_10 : foo => B` both matching the raw name `"foo"`, the code picks
rule 10's canonical name `B` (because `"canon_rule_10" < "canon_rule_2"` as
strings), not rule 2's `A` as the claim's numeric ordering would require;
the resolved item is created with canonical name `B`. -/
theorem rule_order_counterexample :
    ruleCandidate literalMatch cfgLex "foo" = some "B" ∧
    (resolveItemId literalMatch catLex "foo" none).2.items = [(1, "B", none)] ∧
    ("B" : String) ≠ "A" := by
  refine ⟨by decide, by decide, by decide⟩

/-- Witness for `ruleCandidate_first_in_name_order`, instantiated on the
two-rule configuration `cfgLex` and raw name `"foo"`. -/
theorem ruleCandidate_first_in_name_order_witness :
    ∃ n v pat, (n, v) ∈ cfgLex ∧ charsMatchAt "canon_rule_".data n.data = true ∧
      parseRule v = some (pat, "B") ∧ literalMatch pat "foo" = true ∧
      ∀ n' v' pat' c', (n', v') ∈ cfgLex → charsMatchAt "canon_rule_".data n'.data = true →
        parseRule v' = some (pat', c') → literalMatch pat' "foo" = true →
        lexLe n.data n'.data = true :=
  ruleCandidate_first_in_name_order literalMatch cfgLex "foo" "B" (by decide)

/-! ### Rolling features (`_make_rolling_features`, `app/model_train.py`)

A per-item daily series is a list of `(weekday, y)` pairs in date order.
`_make_rolling_features` groups by weekday, applies
`rolling(window, min_periods).mean().shift(1)` inside each weekday bucket,
and scatters the result back onto the original rows. -/

/-- `Series.rolling(window=w, min_periods=minp).mean()`: at position `p` the
mean of the window ending at `p` (up to `w` elements), or missing when fewer
than `minp` elements are available. -/
def rollingMean (w minp : ℕ) (ys : List ℚ) : List (Option ℚ) :=
  (List.range ys.length).map (fun p =>
    let win := (ys.take (p + 1)).drop (p + 1 - w)
    if minp ≤ win.length then some (win.sum / (win.length : ℚ)) else none)

/-- `.shift(1)`: drop the last value, prepend a missing value. -/
def shiftOne (l : List (Option ℚ)) : List (Option ℚ) := (none :: l).take l.length

/-- The `y` values of one weekday bucket, in series order. -/
def bucketValues (wd : ℕ) (xs : List (ℕ × ℚ)) : List ℚ :=
  (xs.filter (fun p => p.1 == wd)).map Prod.snd

/-- The position of row `i` inside its weekday bucket: how many earlier rows
share its weekday. -/
def bucketPos (wd : ℕ) (xs : List (ℕ × ℚ)) (i : ℕ) : ℕ :=
  ((xs.take i).filter (fun p => p.1 == wd)).length

/-- `_make_rolling_features` (`app/model_train.py`): the `last4_same_wd` and
`last8_same_wd` columns — for each row, the shifted rolling mean of its
weekday bucket (window 4 / min 2, and window 8 / min 3), read off at the
row's position within the bucket. -/
def makeRollingFeatures (xs : List (ℕ × ℚ)) : List (Option ℚ × Option ℚ) :=
  (List.range xs.length).map (fun i =>
    match xs[i]? with
    | some (wd, _) =>
        ((shiftOne (rollingMean 4 2 (bucketValues wd xs))).getD (bucketPos wd xs i) none,
         (shiftOne (rollingMean 8 3 (bucketValues wd xs))).getD (bucketPos wd xs i) none)
    | none => (none, none))

/-- The spec's description of one rolling feature: the mean of the last `w`
observations of the bucket *strictly before* the current one, defined only
when at least `minp` prior observations exist. -/
def trailingMean (w minp : ℕ) (prior : List ℚ) : Option ℚ :=
  if minp ≤ prior.length then
    some ((prior.drop (prior.length - w)).sum / (((prior.drop (prior.length - w)).length : ℕ) : ℚ))
  else none

theorem bucketValues_take (wd : ℕ) (xs : List (ℕ × ℚ)) (i : ℕ) :
    bucketValues wd (xs.take i) = (bucketValues wd xs).take (bucketPos wd xs i) := by
  induction xs generalizing i with
  | nil => simp [bucketValues, bucketPos]
  | cons p rest ih =>
      cases i with
      | zero => simp [bucketValues, bucketPos]
      | succ i' =>
          cases hpw : (p.1 == wd) with
          | true =>
              simp only [bucketValues, bucketPos, List.take_succ_cons, List.filter_cons,
                hpw, if_true, List.map_cons, List.length_cons, List.take_succ_cons]
              exact congrArg (p.2 :: ·) (ih i')
          | false =>
              simp only [bucketValues, bucketPos, List.take_succ_cons, List.filter_cons,
                hpw, Bool.false_eq_true, if_false]
              exact ih i'

theorem bucketValues_take_length (wd : ℕ) (xs : List (ℕ × ℚ)) (i : ℕ) :
    (bucketValues wd (xs.take i)).length = bucketPos wd xs i := by
  simp [bucketValues, bucketPos]

theorem bucketPos_lt (wd : ℕ) (y : ℚ) (xs : List (ℕ × ℚ)) (i : ℕ)
    (h : xs[i]? = some (wd, y)) :
    bucketPos wd xs i < (bucketValues wd xs).length := by
  rw [List.getElem?_eq_some] at h
  obtain ⟨hi, hv⟩ := h
  have hsplit : xs = xs.take i ++ (wd, y) :: xs.drop (i + 1) := by
    conv_lhs => rw [← List.take_append_drop i xs]
    rw [List.drop_eq_getElem_cons hi, hv]
  conv_rhs => rw [hsplit]
  rw [show bucketPos wd xs i = (bucketValues wd (xs.take i)).length from
    (bucketValues_take_length wd xs i).symm]
  unfold bucketValues
  rw [List.filter_append, List.map_append, List.length_append]
  simp [List.filter_cons]

theorem shiftOne_rollingMean_getD (w minp : ℕ) (hminp : 1 ≤ minp) (hwm : minp ≤ w)
    (B : List ℚ) (j : ℕ) (hj : j < B.length) :
    (shiftOne (rollingMean w minp B)).getD j none = trailingMean w minp (B.take j) := by
  have hlen : (rollingMean w minp B).length = B.length := by
    simp [rollingMean]
  rw [List.getD_eq_getElem?_getD]
  unfold shiftOne
  rw [List.getElem?_take_of_lt (by rw [hlen]; exact hj)]
  cases j with
  | zero =>
      rw [List.getElem?_cons_zero]
      have h0 : ¬ (2 ≤ 1) := by omega
      have hne : ¬ (minp ≤ (List.take 0 B).length) := by
        simp only [List.take_zero, List.length_nil]
        omega
      unfold trailingMean
      rw [if_neg hne]
      rfl
  | succ j' =>
      rw [List.getElem?_cons_succ]
      have hj' : j' < B.length := by omega
      unfold rollingMean
      rw [List.getElem?_map, List.getElem?_range hj']
      simp only [Option.map_some', Option.getD_some]
      have htl : (B.take (j' + 1)).length = j' + 1 := by
        rw [List.length_take]
        omega
      have hwl : ((B.take (j' + 1)).drop (j' + 1 - w)).length = j' + 1 - (j' + 1 - w) := by
        rw [List.length_drop, htl]
      unfold trailingMean
      rw [htl, hwl]
      by_cases hcond : minp ≤ j' + 1
      · rw [if_pos (by omega), if_pos hcond]
      · rw [if_neg (by omega), if_neg hcond]

theorem makeRollingFeatures_getD (xs : List (ℕ × ℚ)) (i : ℕ) (wd : ℕ) (y : ℚ)
    (hget : xs[i]? = some (wd, y)) :
    (makeRollingFeatures xs).getD i (none, none) =
      (trailingMean 4 2 (bucketValues wd (xs.take i)),
       trailingMean 8 3 (bucketValues wd (xs.take i))) := by
  have hi : i < xs.length := (List.getElem?_eq_some.mp hget).1
  rw [List.getD_eq_getElem?_getD]
  unfold makeRollingFeatures
  rw [List.getElem?_map, List.getElem?_range hi]
  simp only [Option.map_some', Option.getD_some, hget]
  have hpos := bucketPos_lt wd y xs i hget
  rw [shiftOne_rollingMean_getD 4 2 (by omega) (by omega) _ _ hpos,
      shiftOne_rollingMean_getD 8 3 (by omega) (by omega) _ _ hpos,
      ← bucketValues_take]

/-- C2: the rolling features are leakage-free.  For every series and every
row `i` with weekday `wd`, `last4_same_wd` at `i` is the trailing mean of the
last four same-weekday observations strictly before `i` (missing unless at
least two exist) and `last8_same_wd` the trailing mean of the last eight
(missing unless at least three exist); consequently both values depend only
on the strict prefix of the series before `i` (and the weekday at `i`),
never on the observation at `i` or later ones. -/
theorem rolling_no_leakage (xs : List (ℕ × ℚ)) (i : ℕ) (wd : ℕ) (y : ℚ)
    (hget : xs[i]? = some (wd, y)) :
    (makeRollingFeatures xs).getD i (none, none) =
      (trailingMean 4 2 (bucketValues wd (xs.take i)),
       trailingMean 8 3 (bucketValues wd (xs.take i))) ∧
    (∀ (ys : List (ℕ × ℚ)) (y' : ℚ), ys.take i = xs.take i → ys[i]? = some (wd, y') →
      (makeRollingFeatures ys).getD i (none, none) =
      (makeRollingFeatures xs).getD i (none, none)) := by
  refine ⟨makeRollingFeatures_getD xs i wd y hget, ?_⟩
  intro ys y' hpre hget'
  rw [makeRollingFeatures_getD ys i wd y' hget', makeRollingFeatures_getD xs i wd y hget,
      hpre]

/-- Witness for `rolling_no_leakage` on the five-row single-weekday series
`[1, 2, 3, 4, 5]` at position 4: both features are the mean `5/2` of the
prior observations `[1, 2, 3, 4]`, and changing the value at position 4
(to 50) does not change them. -/
theorem rolling_no_leakage_witness :
    (makeRollingFeatures [(2, 1), (2, 2), (2, 3), (2, 4), (2, 5)]).getD 4 (none, none) =
      (trailingMean 4 2 (bucketValues 2 ([(2, 1), (2, 2), (2, 3), (2, 4), (2, 5)].take 4)),
       trailingMean 8 3 (bucketValues 2 ([(2, 1), (2, 2), (2, 3), (2, 4), (2, 5)].take 4))) ∧
    (makeRollingFeatures [(2, 1), (2, 2), (2, 3), (2, 4), (2, 50)]).getD 4 (none, none) =
      (makeRollingFeatures [(2, 1), (2, 2), (2, 3), (2, 4), (2, 5)]).getD 4 (none, none) ∧
    (makeRollingFeatures [(2, 1), (2, 2), (2, 3), (2, 4), (2, 5)]).getD 4 (none, none) =
      (some (5/2), some (5/2)) := by
  have h := rolling_no_leakage [(2, 1), (2, 2), (2, 3), (2, 4), (2, 5)] 4 2 5 rfl
  refine ⟨h.1, h.2 _ 50 rfl rfl, ?_⟩
  rw [h.1]
  norm_num [trailingMean, bucketValues]

/-! ### Rolling-origin cross-validation (`_time_series_cv_mape`,
`app/model_train.py`)

The data is the list of `(feature-row, y)` samples in chronological order.
The sklearn pipeline (imputer + scaler + ridge) is abstracted as
`fit : trainingData → (featureRow → prediction)`; every property below holds
for an arbitrary `fit`.  `np.linspace(0.6, 0.9, 3)` is exactly
`[3/5, 3/4, 9/10]` and `int(n * frac)` is `⌊n·frac⌋` (for the sample sizes
used in the witnesses the float products are exact). -/

/-- `mape`: mean of `|true - pred| / |denom|` times 100, where a true value
of zero contributes denominator 1. -/
def mape (trueVals preds : List ℚ) : ℚ :=
  ((trueVals.zip preds).map (fun p => |p.1 - p.2| / (if p.1 = 0 then 1 else |p.1|))).sum /
    (((trueVals.zip preds).map
      (fun p => |p.1 - p.2| / (if p.1 = 0 then 1 else |p.1|))).length : ℚ) * 100

/-- `np.linspace(0.6, 0.9, 3)`. -/
def cvFracs : List ℚ := [3/5, 3/4, 9/10]

/-- `k = int(n * frac)`. -/
def cvK (n : ℕ) (frac : ℚ) : ℕ := (⌊(n : ℚ) * frac⌋).toNat

/-- One fold: fit on the first `k` samples, test on the rest. -/
def cvFold (fit : List (List ℚ × ℚ) → List ℚ → ℚ) (data : List (List ℚ × ℚ))
    (k : ℕ) : ℚ :=
  mape ((data.drop k).map (·.2)) ((data.drop k).map (fun p => fit (data.take k) p.1))

/-- The fold scores of `_time_series_cv_mape`: a fold is *skipped* when
`k < 10 or k >= n` — note the guard is on the training-prefix size `k`. -/
def cvScores (fit : List (List ℚ × ℚ) → List ℚ → ℚ) (data : List (List ℚ × ℚ)) :
    List ℚ :=
  cvFracs.filterMap (fun frac =>
    if cvK data.length frac < 10 ∨ data.length ≤ cvK data.length frac then none
    else some (cvFold fit data (cvK data.length frac)))

/-- `_time_series_cv_mape` (`app/model_train.py`): NaN (here `none`) when
`n < 30` or no fold survives, else the mean of the fold scores. -/
def cvMape (fit : List (List ℚ × ℚ) → List ℚ → ℚ) (data : List (List ℚ × ℚ)) :
    Option ℚ :=
  if data.length < 30 then none
  else if (cvScores fit data).isEmpty then none
  else some ((cvScores fit data).sum / ((cvScores fit data).length : ℚ))

/-- The claim's fold rule, for comparison: a fold qualifies only if it has at
least 10 *test* samples (equivalently, at least 10 samples remaining after
the training prefix). -/
def cvScoresClaim (fit : List (List ℚ × ℚ) → List ℚ → ℚ) (data : List (List ℚ × ℚ)) :
    List ℚ :=
  cvFracs.filterMap (fun frac =>
    if data.length - cvK data.length frac < 10 then none
    else some (cvFold fit data (cvK data.length frac)))

/-- The cross-validated error as the claim words it: undefined when `n < 30`
or no fold qualifies under the test-size rule, else the mean over the
qualifying folds. -/
def cvMapeClaim (fit : List (List ℚ × ℚ) → List ℚ → ℚ) (data : List (List ℚ × ℚ)) :
    Option ℚ :=
  if data.length < 30 then none
  else if (cvScoresClaim fit data).isEmpty then none
  else some ((cvScoresClaim fit data).sum / ((cvScoresClaim fit data).length : ℚ))

theorem cvK_ge10 (n : ℕ) (frac : ℚ) (h : 30 ≤ n) (hf : 1/3 ≤ frac) : 10 ≤ cvK n frac := by
  unfold cvK
  have h1 : (10 : ℤ) ≤ ⌊(n : ℚ) * frac⌋ := by
    rw [Int.le_floor]
    have hn : (30 : ℚ) ≤ (n : ℚ) := by exact_mod_cast h
    push_cast
    nlinarith
  omega

theorem cvK_lt (n : ℕ) (frac : ℚ) (h : 1 ≤ n) (_hf0 : 0 ≤ frac) (hf : frac < 1) :
    cvK n frac < n := by
  unfold cvK
  have h1 : ⌊(n : ℚ) * frac⌋ < (n : ℤ) := by
    rw [Int.floor_lt]
    have hn : (1 : ℚ) ≤ (n : ℚ) := by exact_mod_cast h
    push_cast
    nlinarith
  omega

/-- C7 (amended): the cross-validated error is undefined *exactly* when the
series has fewer than 30 samples.  The fold guard in the code is on the
training-prefix size `k = ⌊n·frac⌋` (`k ≥ 10` and `k < n`), and for every
`n ≥ 30` all three folds satisfy it, so the reported error is then the mean
over all three folds' MAPE (zero true values using denominator 1) — no fold
is ever dropped for having a small test set. -/
theorem cvMape_defined_iff (fit : List (List ℚ × ℚ) → List ℚ → ℚ)
    (data : List (List ℚ × ℚ)) :
    ((cvMape fit data).isSome = true ↔ 30 ≤ data.length) ∧
    (30 ≤ data.length →
      (cvScores fit data).length = 3 ∧
      cvMape fit data = some ((cvScores fit data).sum / 3)) := by
  by_cases hn : data.length < 30
  · constructor
    · unfold cvMape
      rw [if_pos hn]
      simp only [Option.isSome_none, Bool.false_eq_true, false_iff]
      omega
    · intro h
      omega
  · have h30 : 30 ≤ data.length := by omega
    have hc1 := cvK_ge10 data.length (3/5) h30 (by norm_num)
    have hc2 := cvK_ge10 data.length (3/4) h30 (by norm_num)
    have hc3 := cvK_ge10 data.length (9/10) h30 (by norm_num)
    have hd1 := cvK_lt data.length (3/5) (by omega) (by norm_num) (by norm_num)
    have hd2 := cvK_lt data.length (3/4) (by omega) (by norm_num) (by norm_num)
    have hd3 := cvK_lt data.length (9/10) (by omega) (by norm_num) (by norm_num)
    have hf1 : (if cvK data.length (3/5) < 10 ∨ data.length ≤ cvK data.length (3/5) then
        (none : Option ℚ) else some (cvFold fit data (cvK data.length (3/5)))) =
        some (cvFold fit data (cvK data.length (3/5))) := if_neg (by omega)
    have hf2 : (if cvK data.length (3/4) < 10 ∨ data.length ≤ cvK data.length (3/4) then
        (none : Option ℚ) else some (cvFold fit data (cvK data.length (3/4)))) =
        some (cvFold fit data (cvK data.length (3/4))) := if_neg (by omega)
    have hf3 : (if cvK data.length (9/10) < 10 ∨ data.length ≤ cvK data.length (9/10) then
        (none : Option ℚ) else some (cvFold fit data (cvK data.length (9/10)))) =
        some (cvFold fit data (cvK data.length (9/10))) := if_neg (by omega)
    have hscores : cvScores fit data =
        [cvFold fit data (cvK data.length (3/5)),
         cvFold fit data (cvK data.length (3/4)),
         cvFold fit data (cvK data.length (9/10))] := by
      unfold cvScores
      simp only [cvFracs, List.filterMap_cons, List.filterMap_nil, hf1, hf2, hf3]
    constructor
    · unfold cvMape
      rw [if_neg hn, hscores]
      simp [h30]
    · intro _
      refine ⟨by rw [hscores]; rfl, ?_⟩
      unfold cvMape
      rw [if_neg hn, hscores]
      norm_num

/-- The constant-zero predictor, instantiating the abstract sklearn
pipeline in the C7 witness and counterexample. -/
def fitZero : List (List ℚ × ℚ) → List ℚ → ℚ := fun _ _ => 0

/-- A 40-sample series: 36 days of 5 followed by 4 days of 0 (no features). -/
def data40 : List (List ℚ × ℚ) :=
  List.replicate 36 (([] : List ℚ), (5 : ℚ)) ++ List.replicate 4 (([] : List ℚ), (0 : ℚ))

theorem data40_length : data40.length = 40 := by simp [data40]

theorem cvFold_data40_24 : cvFold fitZero data40 24 = 75 := by
  unfold cvFold data40 fitZero
  rw [show (List.replicate 36 (([] : List ℚ), (5 : ℚ)) ++
      List.replicate 4 (([] : List ℚ), (0 : ℚ))).drop 24 =
      List.replicate 12 (([] : List ℚ), (5 : ℚ)) ++ List.replicate 4 (([] : List ℚ), (0 : ℚ))
    from by simp [List.drop_append, List.drop_replicate]]
  simp only [List.map_append, List.map_replicate]
  unfold mape
  rw [List.zip_append (by simp), List.zip_replicate, List.zip_replicate]
  norm_num [List.map_append, List.map_replicate, List.sum_append, List.sum_replicate]

theorem cvFold_data40_30 : cvFold fitZero data40 30 = 60 := by
  unfold cvFold data40 fitZero
  rw [show (List.replicate 36 (([] : List ℚ), (5 : ℚ)) ++
      List.replicate 4 (([] : List ℚ), (0 : ℚ))).drop 30 =
      List.replicate 6 (([] : List ℚ), (5 : ℚ)) ++ List.replicate 4 (([] : List ℚ), (0 : ℚ))
    from by simp [List.drop_append, List.drop_replicate]]
  simp only [List.map_append, List.map_replicate]
  unfold mape
  rw [List.zip_append (by simp), List.zip_replicate, List.zip_replicate]
  norm_num [List.map_append, List.map_replicate, List.sum_append, List.sum_replicate]

theorem cvFold_data40_36 : cvFold fitZero data40 36 = 0 := by
  unfold cvFold data40 fitZero
  rw [show (List.replicate 36 (([] : List ℚ), (5 : ℚ)) ++
      List.replicate 4 (([] : List ℚ), (0 : ℚ))).drop 36 =
      List.replicate 4 (([] : List ℚ), (0 : ℚ))
    from by simp [List.drop_append, List.drop_replicate]]
  simp only [List.map_replicate]
  unfold mape
  rw [List.zip_replicate]
  norm_num [List.map_replicate, List.sum_replicate]

theorem cvK_40 : cvK 40 (3/5) = 24 ∧ cvK 40 (3/4) = 30 ∧ cvK 40 (9/10) = 36 := by
  refine ⟨?_, ?_, ?_⟩ <;>
  · unfold cvK
    norm_num
    rfl

theorem cvScores_data40 : cvScores fitZero data40 = [75, 60, 0] := by
  unfold cvScores
  rw [data40_length]
  simp only [cvFracs, List.filterMap_cons, List.filterMap_nil, cvK_40.1, cvK_40.2.1,
    cvK_40.2.2]
  rw [if_neg (by norm_num), if_neg (by norm_num), if_neg (by norm_num)]
  rw [cvFold_data40_24, cvFold_data40_30, cvFold_data40_36]

theorem cvScoresClaim_data40 : cvScoresClaim fitZero data40 = [75, 60] := by
  unfold cvScoresClaim
  rw [data40_length]
  simp only [cvFracs, List.filterMap_cons, List.filterMap_nil, cvK_40.1, cvK_40.2.1,
    cvK_40.2.2]
  rw [if_neg (by norm_num), if_neg (by norm_num), if_pos (by norm_num)]
  rw [cvFold_data40_24, cvFold_data40_30]

/-- C7 counterexample: on a 40-sample series with the constant-zero
predictor, the code averages *all three* folds (test sizes 16, 10 and 4) and
reports 45, while the claim's rule (a fold needs at least 10 test samples)
would drop the third fold and report 67.5: the fold guard in the code is on
the training size, not on the test size. -/
theorem cv_fold_selection_counterexample :
    cvMape fitZero data40 = some 45 ∧
    cvMapeClaim fitZero data40 = some (135 / 2) ∧
    (45 : ℚ) ≠ 135 / 2 := by
  refine ⟨?_, ?_, by norm_num⟩
  · unfold cvMape
    rw [data40_length, if_neg (by norm_num), cvScores_data40]
    norm_num
  · unfold cvMapeClaim
    rw [data40_length, if_neg (by norm_num), cvScoresClaim_data40]
    norm_num

/-- Witness for `cvMape_defined_iff` on the 40-sample series. -/
theorem cvMape_defined_iff_witness :
    (cvMape fitZero data40).isSome = true ∧
    (cvScores fitZero data40).length = 3 ∧
    cvMape fitZero data40 = some ((cvScores fitZero data40).sum / 3) := by
  have h30 : 30 ≤ data40.length := by rw [data40_length]; norm_num
  have h := cvMape_defined_iff fitZero data40
  exact ⟨h.1.mpr h30, (h.2 h30).1, (h.2 h30).2⟩

/-! ### Prediction-time features (`predict_next_week_for_item`,
`app/model_train.py`) versus training features (`_prepare_xy`)

Dates are day numbers (days since 1970-01-01, a Thursday).  Training rows
take their weekday from SQLite `strftime('%w')` (0 = Sunday); the prediction
path takes it from pandas `.dt.weekday` (0 = Monday).  The saved feature
order is `[max_temp, rain_mm, last4_same_wd, last8_same_wd, is_holiday,
month_sin, month_cos, wd_1 .. wd_6]`; at prediction time the two rolling
columns do not exist in the future frame, so `df_future[c] = 0.0` fills
them with zero.  The month-seasonality values are passed in as `msin`/`mcos`
(both paths call the same `_add_calendar_features`). -/

/-- pandas `.dt.weekday`: 0 = Monday. -/
def wdPred (d : ℤ) : ℤ := (d + 3) % 7

/-- SQLite `strftime('%w')`: 0 = Sunday. -/
def wdSql (d : ℤ) : ℤ := (d + 4) % 7

/-- The one-hot block `wd_1 .. wd_6` of a *training* row: weekday from
`strftime('%w')`, so `wd_1` means Monday, …, `wd_6` Saturday. -/
def trainWdOneHot (d : ℤ) : List ℚ :=
  (List.range 6).map (fun j => if wdSql d = (j : ℤ) + 1 then 1 else 0)

/-- The one-hot block selected at *prediction* time: `get_dummies` over the
pandas weekday, reindexed to `wd_1 .. wd_6` with absent columns filled by
zero (a Monday produces `wd_0`, which is dropped, and `wd_6` never occurs
for Mon–Sat dates). -/
def predictWdOneHot (d : ℤ) : List ℚ :=
  (List.range 6).map (fun j => if wdPred d = (j : ℤ) + 1 then 1 else 0)

/-- A training feature row of `_prepare_xy` for a day with the given
weather, rolling means, holiday flag and seasonality. -/
def trainFeatureRow (temp rain last4 last8 : ℚ) (holiday : Bool) (msin mcos : ℚ)
    (d : ℤ) : List ℚ :=
  [temp, rain, last4, last8, if holiday then 1 else 0, msin, mcos] ++ trainWdOneHot d

/-- The feature row `predict_next_week_for_item` actually builds for the same
day: the rolling columns are filled with `0.0` and the one-hot block uses the
pandas weekday. -/
def predictFeatureRow (temp rain : ℚ) (holiday : Bool) (msin mcos : ℚ) (d : ℤ) : List ℚ :=
  [temp, rain, 0, 0, if holiday then 1 else 0, msin, mcos] ++ predictWdOneHot d

/-- C8: the prediction path does *not* reconstruct the training features.
Day 20241 is 2025-06-02, a Monday: training encodes it as `wd_1 = 1`, but the
prediction path computes pandas weekday 0, so its entire `wd_1..wd_6` block
is zero — and the next day (Tuesday) fills Monday's slot `wd_1`.  Moreover
the rolling-mean features are hard zero at prediction time, so the rows
differ for any seasonality values whenever the item has a nonzero rolling
mean (here 5). -/
theorem predict_features_mismatch :
    wdPred 20241 = 0 ∧
    wdSql 20241 = 1 ∧
    trainWdOneHot 20241 = [1, 0, 0, 0, 0, 0] ∧
    predictWdOneHot 20241 = [0, 0, 0, 0, 0, 0] ∧
    predictWdOneHot 20242 = [1, 0, 0, 0, 0, 0] ∧
    (∀ msin mcos : ℚ,
      predictFeatureRow 20 1 false msin mcos 20241 ≠
      trainFeatureRow 20 1 5 5 false msin mcos 20241) := by
  have hp : wdPred 20241 = 0 := by unfold wdPred; omega
  have hs : wdSql 20241 = 1 := by unfold wdSql; omega
  have hp2 : wdPred 20242 = 1 := by unfold wdPred; omega
  refine ⟨hp, hs, ?_, ?_, ?_, ?_⟩
  · norm_num [trainWdOneHot, hs, List.range_succ]
  · norm_num [predictWdOneHot, hp, List.range_succ]
  · norm_num [predictWdOneHot, hp2, List.range_succ]
  · intro msin mcos
    simp [predictFeatureRow, trainFeatureRow]

/-! ### Forecast generation (`generate_forecast`, `app/pipeline.py`)

The persisted state read by `generate_forecast` is passed in as plain rows;
`today` is the evaluation date used by SQLite's `date('now', ...)`;
`predict` abstracts `predict_next_week_for_item` (already rounded and
clamped, hence `List ℤ`); `stdFn` abstracts the pandas sample standard
deviation (its square root is irrational in general, so it enters as an
opaque function — `fillna(0)` for single-week groups is explicit below).
The function is total: the empty-history early return is the pair of empty
lists, and no exception path exists in the embedded fragment. -/

/-- One joined row of `_fetch_history`: date, nullable `item_id`, raw
`item_name`, joined `canonical_name` (null when the item id is null or
unmatched), and the quantity sold. -/
structure SalesRow where
  date : ℤ
  itemId : Option ℕ
  itemName : String
  canonical : Option String
  qty : ℚ
deriving DecidableEq

/-- A `weather` row (temperature or rainfall may be NULL/NaN). -/
structure WeatherRow where
  date : ℤ
  maxTemp : Option ℚ
  rainMm : Option ℚ
deriving DecidableEq

/-- An `events` row as used by `_apply_events`. -/
structure EventRow where
  date : ℤ
  upliftPct : ℚ
deriving DecidableEq

/-- The typed configuration read from the `config` table. -/
structure ForecastConfig where
  coefTemp : ℚ
  coefRain : ℚ
  lookbackWeeks : ℕ
  stdThresh : ℚ
  minBatch : ℤ
deriving DecidableEq

/-- `item_key`: the numeric `item_id` when present, else the raw name. -/
abbrev ItemKey := ℕ ⊕ String

def itemKey (r : SalesRow) : ItemKey :=
  match r.itemId with
  | some i => .inl i
  | none => .inr r.itemName

/-- `display_name`: the canonical name when joined, else the raw name. -/
def displayName (r : SalesRow) : String :=
  match r.canonical with
  | some c => c
  | none => r.itemName

/-- Stable insertion step for `sort_values("date")` (row order within one
`(item, weekday)` bucket is unique by the `(date, item_id)` constraint, so
stability is immaterial). -/
def insertByDate (r : SalesRow) : List SalesRow → List SalesRow
  | [] => [r]
  | q :: rest => if q.date ≤ r.date then q :: insertByDate r rest else r :: q :: rest

def sortByDate (l : List SalesRow) : List SalesRow := l.foldr insertByDate []

/-- `ew_last8` (`_weekday_baseline`): the adjusted exponentially-weighted
mean (`alpha = 0.5`, newest weighted highest) of the last eight values, `0`
for an empty bucket.  With weights `2^i` over the tail in age order. -/
def ewTail8 (s : List ℚ) : ℚ :=
  let t := s.drop (s.length - 8)
  if t.length = 0 then 0
  else ((t.zip ((List.range t.length).map (fun i => (2 : ℚ) ^ i))).map
          (fun p => p.1 * p.2)).sum /
       (((List.range t.length).map (fun i => (2 : ℚ) ^ i)).sum)

/-- The date-ordered quantities of one `(item_key, weekday)` bucket. -/
def bucket (h : List SalesRow) (key : ItemKey) (wd : ℤ) : List ℚ :=
  ((sortByDate h).filter
    (fun r => decide (itemKey r = key) && decide (wdPred r.date = wd))).map (·.qty)

/-- `_load_week_weather`: the weather row for the week-day `wd`, from the
rows whose date falls in the six-day window (the dict comprehension keeps
the last row per weekday). -/
def weekWeather (ws : List WeatherRow) (weekStart : ℤ) (wd : ℤ) :
    Option (Option ℚ × Option ℚ) :=
  (((ws.filter (fun w => decide (weekStart ≤ w.date) && decide (w.date ≤ weekStart + 5))).reverse).find?
    (fun w => decide (wdPred w.date = wd))).map (fun w => (w.maxTemp, w.rainMm))

/-- `_apply_weather` for one cell: scale-and-round by temperature (anchor
20°C), then by rainfall (anchor 1mm), each only when known. -/
def applyWeatherDay (cT cR : ℚ) (wopt : Option (Option ℚ × Option ℚ)) (x : ℚ) : ℚ :=
  match wopt with
  | none => x
  | some (topt, ropt) =>
      let x1 := match topt with
        | some t => ((roundHalfEven (x * (1 + cT * (t - 20) / 10)) : ℤ) : ℚ)
        | none => x
      match ropt with
      | some r => ((roundHalfEven (x1 * (1 + cR * (r - 1) / 10)) : ℤ) : ℚ)
      | none => x1

/-- `_apply_events` on one item's six-day row: every event inside the week
scales its day's cell by `1 + uplift/100`, rounded.  (An event on a Sunday
inside the window would raise `IndexError` in the source; with a Monday
`week_start` the window contains no Sunday, and here the out-of-range set
is a no-op.) -/
def applyEventsRow (evs : List EventRow) (weekStart : ℤ) (row : List ℚ) : List ℚ :=
  evs.foldl (fun acc e =>
    if weekStart ≤ e.date ∧ e.date ≤ weekStart + 5 then
      match acc[(wdPred e.date).toNat]? with
      | some x => acc.set (wdPred e.date).toNat
          ((roundHalfEven (x * (1 + e.upliftPct / 100)) : ℤ) : ℚ)
      | none => acc
    else acc) row

/-- The per-day blend over a six-day row. -/
def blendRow (w : ℚ) (yhat : List ℤ) (row : List ℚ) : List ℚ :=
  (row.zip yhat).map (fun p => ((blendDay w p.2 p.1 : ℤ) : ℚ))

/-- The ML-blend step of `generate_forecast`: only numeric keys with a
model (six predictions) are blended; all other rows keep the baseline. -/
def maybeBlend (useMl : Bool) (w : ℚ) (predict : ℕ → Option (List ℤ))
    (key : ItemKey) (row : List ℚ) : List ℚ :=
  if useMl then
    match key with
    | .inl iid =>
        match predict iid with
        | some yhat => if yhat.length = 6 then blendRow w yhat row else row
        | none => row
    | .inr _ => row
  else row

/-- `to_period("W-MON").start_time`: the start (a Tuesday) of the
Tuesday-to-Monday week containing `d`. -/
def rowWeekStart (d : ℤ) : ℤ := d - (wdPred d + 6) % 7

/-- First-occurrence deduplication (pandas group keys). -/
def dedupFirst {α : Type} [DecidableEq α] : List α → List α
  | [] => []
  | k :: rest => k :: dedupFirst (rest.filter (fun x => x ≠ k))
termination_by l => l.length
decreasing_by
  simp only [List.length_cons]
  exact Nat.lt_succ_of_le (List.length_filter_le _ rest)

/-- The historical weekly totals of one item: total quantity per
`W-MON` week present in its history. -/
def weeklyTotals (h : List SalesRow) (key : ItemKey) : List ℚ :=
  let rows := h.filter (fun r => decide (itemKey r = key))
  (dedupFirst (rows.map (fun r => rowWeekStart r.date))).map
    (fun ws => ((rows.filter (fun r => decide (rowWeekStart r.date = ws))).map (·.qty)).sum)

/-- `name_map`: display name of the first (date-ordered) row of the item;
missing keys fall back to `str(key)`. -/
def nameMap (h : List SalesRow) (key : ItemKey) : String :=
  match (sortByDate h).find? (fun r => decide (itemKey r = key)) with
  | some r => displayName r
  | none => match key with
            | .inl i => toString i
            | .inr s => s

/-- One row of the returned display table. -/
structure OutRow where
  name : String
  weeklyTotal : ℤ
  days : List ℤ
  note : WeekNote
deriving DecidableEq

/-- One row appended to the `forecasts` table. -/
structure PersistRow where
  weekStart : ℤ
  name : String
  days : List ℤ
  note : WeekNote
deriving DecidableEq

/-- `generate_forecast` (`app/pipeline.py`): filter history to the lookback
window; on empty history return an empty table having persisted nothing;
otherwise build the weekday baseline, apply weather, clamp at zero, apply
events, optionally blend with the per-item model, apply the batch floor,
attach the typical-week note, and return the display rows next to the rows
inserted into the forecasts log. -/
def generateForecast (stdFn : List ℚ → ℚ) (cfg : ForecastConfig) (today weekStart : ℤ)
    (sales : List SalesRow) (weather : List WeatherRow) (events : List EventRow)
    (useMl : Bool) (mlBlend : ℚ) (predict : ℕ → Option (List ℤ)) :
    List OutRow × List PersistRow :=
  let hist := sales.filter (fun r => decide (today - 7 * (cfg.lookbackWeeks : ℤ) ≤ r.date))
  if hist.isEmpty then ([], [])
  else
    let keys := dedupFirst (hist.map itemKey)
    let rows := keys.map (fun key =>
      let base0 := (List.range 6).map (fun wd => ewTail8 (bucket hist key (wd : ℤ)))
      let base1 := (List.range 6).map (fun (i : ℕ) =>
        applyWeatherDay cfg.coefTemp cfg.coefRain
          (weekWeather weather weekStart ((i : ℕ) : ℤ)) (base0.getD i 0))
      let base2 := base1.map (fun x => max x 0)
      let base3 := applyEventsRow events weekStart base2
      let base4 := maybeBlend useMl mlBlend predict key base3
      let finalDays := base4.map (fun x => floorDay cfg.minBatch x)
      let totals := weeklyTotals hist key
      let wmean := if totals.length = 0 then 0 else totals.sum / (totals.length : ℚ)
      let wstd := if totals.length ≤ 1 then 0 else stdFn totals
      let note := weekNote cfg.stdThresh wmean wstd ((finalDays.map (fun z => (z : ℚ))).sum)
      (nameMap hist key, finalDays, note))
    (rows.map (fun r => ⟨r.1, r.2.1.sum, r.2.1, r.2.2⟩),
     rows.map (fun r => ⟨weekStart, r.1, r.2.1, r.2.2⟩))

/-- C10: when no sales row falls inside the lookback window,
`generate_forecast` returns an empty table and appends nothing to the
forecasts log; being a total function, the early-return path raises no
exception. -/
theorem empty_history_no_writes (stdFn : List ℚ → ℚ) (cfg : ForecastConfig)
    (today weekStart : ℤ) (sales : List SalesRow) (weather : List WeatherRow)
    (events : List EventRow) (useMl : Bool) (mlBlend : ℚ)
    (predict : ℕ → Option (List ℤ))
    (h : ∀ r ∈ sales, r.date < today - 7 * (cfg.lookbackWeeks : ℤ)) :
    generateForecast stdFn cfg today weekStart sales weather events useMl mlBlend predict =
      ([], []) := by
  have hfil : sales.filter
      (fun r => decide (today - 7 * (cfg.lookbackWeeks : ℤ) ≤ r.date)) = [] := by
    rw [List.filter_eq_nil_iff]
    intro a ha
    simp only [decide_eq_true_eq, not_le]
    exact h a ha
  unfold generateForecast
  rw [hfil]
  rfl

/-- Witness for `empty_history_no_writes`: one sale on day 0 with a 26-week
lookback evaluated on day 1000 (window start: day 818). -/
theorem empty_history_no_writes_witness :
    generateForecast (fun _ => 0) ⟨3/20, 1/10, 26, 3/2, 6⟩ 1000 1005
      [⟨0, some 1, "Croissant", some "Croissant", 5⟩] [] [] true (1/2) (fun _ => none) =
      ([], []) := by
  apply empty_history_no_writes
  intro r hr
  rcases List.mem_singleton.mp hr with rfl
  norm_num
